import Mathlib

/-!
Verification of the endpoint-constrained white-noise generator.

The embedding translates the noise library (`createRng`, `randomGaussian`,
`detrendLinearInPlace`, `removeMeanInPlace`, `rms`,
`generateEndpointConstrainedWhiteNoise`) and the PCM/WAV encoder
(`floatToPCM16`, `makeWavBlob`, `makeRawPCMBlob`) into Lean.

Modelling conventions:
- JavaScript option numbers (sampleRate, sampleCount) are modelled by `JsNum`,
  a rational number or one of NaN / +Infinity / -Infinity, so that the
  validation and `Math.floor` / `Math.max` / typed-array-length (`ToIndex`)
  semantics can be stated decidably.
- Audio samples are modelled by exact real numbers; the transcendental
  library calls (`Math.sqrt`, `Math.log`, `Math.cos`, `Math.pow`) become
  `Real.sqrt`, `Real.log`, `Real.cos`, `Real.rpow`.  In this exact model no
  intermediate value is NaN or infinite, and `Number.isFinite(currentRms)`
  is identically true.
- `Math.random` (the unseeded path of `createRng`) is modelled by an
  explicit entropy stream `entropy : ℕ → ℚ`; the seeded path is the
  mulberry32 generator on a 32-bit state, translated bit-for-bit with
  natural-number arithmetic modulo 2^32.
- The `while (u === 0) u = rng();` rejection loops of `randomGaussian` are
  given an explicit fuel bound; exhausting the fuel models the (never
  observed) divergence of the source loop and is reported as `outOfFuel`
  rather than as a buffer.
-/

namespace ECWN

/-- A JavaScript number as used for the request options: either a finite
value (modelled exactly by a rational) or one of the three non-finite
values. -/
inductive JsNum where
  | num (x : ℚ)
  | nan
  | posInf
  | negInf
deriving DecidableEq

/-- `Number.isFinite`. -/
def JsNum.isFinite : JsNum → Bool
  | .num _ => true
  | _ => false

/-- The JavaScript comparison `x <= 0` (false on NaN). -/
def JsNum.jsLe0 : JsNum → Bool
  | .num x => decide (x ≤ 0)
  | .nan => false
  | .posInf => false
  | .negInf => true

/-- `Math.floor` extended to the non-finite values (it fixes them). -/
def jsFloor : JsNum → JsNum
  | .num x => .num ⌊x⌋
  | y => y

/-- `Math.max(0, y)` (NaN-propagating, as in JavaScript). -/
def jsMax0 : JsNum → JsNum
  | .nan => .nan
  | .posInf => .posInf
  | .negInf => .num 0
  | .num x => .num (max 0 x)

/-- Errors the generator can raise: the explicit `sampleRate` validation
throw, and the `RangeError` raised by the `new Float32Array(n)` length
conversion (ECMAScript `ToIndex`). -/
inductive GenError where
  | invalidSampleRate
  | rangeError
deriving DecidableEq

/-- ECMAScript `ToIndex` as applied by the `Float32Array(length)`
constructor: NaN becomes 0, anything outside `[0, 2^53 - 1]` (in
particular +Infinity) raises a `RangeError`. -/
def toIndex : JsNum → Except GenError ℕ
  | .nan => .ok 0
  | .posInf => .error .rangeError
  | .negInf => .error .rangeError
  | .num x =>
    if x < 0 then .error .rangeError
    else if (9007199254740991 : ℚ) < x then .error .rangeError
    else .ok ⌊x⌋.toNat

/-- `const n = Math.max(0, Math.floor(sampleCount))` followed by
`new Float32Array(n)`: the effective output length, or a `RangeError`. -/
def computeLength (sampleCount : JsNum) : Except GenError ℕ :=
  toIndex (jsMax0 (jsFloor sampleCount))

/-- State of the random source built by `createRng`: either the mulberry32
32-bit state (seed supplied) or a cursor into the ambient `Math.random`
entropy stream (no seed). -/
inductive RngState where
  | seeded (a : ℕ)
  | unseeded (k : ℕ)

/-- One step of mulberry32 (the body of the closure returned by
`createRng` for a numeric seed), on 32-bit words represented as naturals
below 2^32.  Returns the produced uniform value in `[0,1)` and the new
state. -/
def mulberryNext (a : ℕ) : ℚ × ℕ :=
  let a1 := (a + 0x6D2B79F5) % 4294967296
  let t1 := ((a1 ^^^ (a1 >>> 15)) * (a1 ||| 1)) % 4294967296
  let t2 := ((t1 + ((t1 ^^^ (t1 >>> 7)) * (t1 ||| 61)) % 4294967296) % 4294967296) ^^^ t1
  let r := t2 ^^^ (t2 >>> 14)
  ((r : ℚ) / 4294967296, a1)

/-- One call of the function returned by `createRng`: mulberry32 when
seeded, the next `Math.random()` value from the entropy stream otherwise. -/
def rngNext (entropy : ℕ → ℚ) : RngState → ℚ × RngState
  | .seeded a => ((mulberryNext a).1, .seeded (mulberryNext a).2)
  | .unseeded k => (entropy k, .unseeded (k + 1))

/-- `createRng(seed)` initial state: `seed >>> 0` (ToUint32) for an
integral numeric seed, else the `Math.random` stream at position 0. -/
def initialState (seed : Option ℤ) : RngState :=
  match seed with
  | some s => .seeded (s % 4294967296).toNat
  | none => .unseeded 0

/-- The `while (u === 0) u = rng();` loop of `randomGaussian`: draw until a
non-zero value appears, giving up (`none`) when the fuel runs out. -/
def drawNonzero (entropy : ℕ → ℚ) : ℕ → RngState → Option (ℚ × RngState)
  | 0, _ => none
  | fuel + 1, st =>
    let p := rngNext entropy st
    if p.1 = 0 then drawNonzero entropy fuel p.2 else some p

/-- `randomGaussian(rng)`: Box-Muller transform
`sqrt(-2 ln u) * cos(2 pi v)` on two non-zero uniform draws. -/
noncomputable def randomGaussian (entropy : ℕ → ℚ) (fuel : ℕ) (st : RngState) :
    Option (ℝ × RngState) :=
  match drawNonzero entropy fuel st with
  | none => none
  | some (u, st1) =>
    match drawNonzero entropy fuel st1 with
    | none => none
    | some (v, st2) =>
      some (Real.sqrt (-2.0 * Real.log (u : ℝ)) * Real.cos (2.0 * Real.pi * (v : ℝ)), st2)

/-- Requested sample distribution. -/
inductive Distribution where
  | gaussian
  | uniform
deriving DecidableEq

/-- Step 1 of the generator: fill the buffer with `n` white-noise samples,
`randomGaussian(rng)` or `rng() * 2 - 1` according to the distribution,
drawn in index order. -/
noncomputable def fill (dist : Distribution) (entropy : ℕ → ℚ) (fuel : ℕ) :
    ℕ → RngState → Option (List ℝ × RngState)
  | 0, st => some ([], st)
  | n + 1, st =>
    match dist with
    | .gaussian =>
      match randomGaussian entropy fuel st with
      | none => none
      | some (x, st1) =>
        match fill .gaussian entropy fuel n st1 with
        | none => none
        | some (xs, st2) => some (x :: xs, st2)
    | .uniform =>
      let p := rngNext entropy st
      match fill .uniform entropy fuel n p.2 with
      | none => none
      | some (xs, st2) => some (((p.1 * 2 - 1 : ℚ) : ℝ) :: xs, st2)

noncomputable section

/-- The indexed subtraction loop of `detrendLinearInPlace`:
`data[i] = data[i] - (a + (b - a) * i / denom)` for increasing `i`. -/
def detrendMap (a b denom : ℝ) : List ℝ → ℕ → List ℝ
  | [], _ => []
  | x :: xs, i => (x - (a + (b - a) * (i : ℝ) / denom)) :: detrendMap a b denom xs (i + 1)

/-- `detrendLinearInPlace(data)`: for length below 2, a single sample is
zeroed; otherwise the affine ramp through the endpoints is subtracted and
the endpoints are then explicitly assigned 0. -/
def detrendLinearInPlace (l : List ℝ) : List ℝ :=
  if l.length < 2 then
    if l.length = 1 then [0] else l
  else
    let a := l.getD 0 0
    let b := l.getD (l.length - 1) 0
    let d := detrendMap a b ((l.length - 1 : ℕ) : ℝ) l 0
    (d.set 0 0).set (l.length - 1) 0

/-- `removeMeanInPlace(data)`: subtract the arithmetic mean from every
sample (no-op on the empty buffer). -/
def removeMeanInPlace (l : List ℝ) : List ℝ :=
  if l.length = 0 then l
  else
    let mean := l.sum / (l.length : ℝ)
    l.map (fun x => x - mean)

/-- `rms(data)`: 0 on the empty buffer, else `sqrt(sum of squares / n)`. -/
noncomputable def rms (l : List ℝ) : ℝ :=
  if l.length = 0 then 0
  else Real.sqrt ((l.map (fun x => x * x)).sum / (l.length : ℝ))

/-- Step 2 of the generator: detrend when `zeroEndpoints` is set. -/
def applyDetrend (zeroEndpoints : Bool) (l : List ℝ) : List ℝ :=
  if zeroEndpoints then detrendLinearInPlace l else l

/-- Step 3 of the generator: remove the mean when `dcRemoval` is set. -/
def applyDc (dcRemoval : Bool) (l : List ℝ) : List ℝ :=
  if dcRemoval then removeMeanInPlace l else l

/-- Step 4 of the generator: scale to the target RMS
(`Math.pow(10, targetRmsDbfs / 20)`), or fill with zeros when the current
RMS is not positive (in this exact model the RMS is always finite, so the
source condition `currentRms > 0 && Number.isFinite(currentRms)` reduces
to positivity). -/
noncomputable def normalizeStage (targetRmsDbfs : ℝ) (l : List ℝ) : List ℝ :=
  let targetRms := Real.rpow 10 (targetRmsDbfs / 20)
  let currentRms := rms l
  if 0 < currentRms then l.map (fun x => x * (targetRms / currentRms))
  else List.replicate l.length 0

/-- The peak-tracking loop of step 5:
`const ax = Math.abs(out[i]); if (ax > peak) peak = ax;` starting from 0. -/
def peakAbs (l : List ℝ) : ℝ :=
  l.foldl (fun p x => if p < |x| then |x| else p) 0

/-- Step 5 of the generator: if the peak absolute sample exceeds 1, rescale
the whole buffer by its reciprocal. -/
def clipStage (l : List ℝ) : List ℝ :=
  let peak := peakAbs l
  if 1 < peak then l.map (fun x => x * (1 / peak)) else l

/-- Final step of the generator: when `zeroEndpoints` was used and the
buffer is non-empty, explicitly re-assign `out[0] = 0` and, when the
length exceeds 1, `out[n-1] = 0`. -/
def endpointStage (zeroEndpoints : Bool) (l : List ℝ) : List ℝ :=
  if zeroEndpoints && decide (1 ≤ l.length) then
    let t := l.set 0 0
    if 1 < l.length then t.set (l.length - 1) 0 else t
  else l

/-- Steps 2-5 of `generateEndpointConstrainedWhiteNoise`, applied to the
raw white-noise buffer. -/
noncomputable def pipeline (zeroEndpoints dcRemoval : Bool) (targetRmsDbfs : ℝ)
    (l : List ℝ) : List ℝ :=
  endpointStage zeroEndpoints
    (clipStage (normalizeStage targetRmsDbfs (applyDc dcRemoval (applyDetrend zeroEndpoints l))))

/-- The `NoiseOptions` record, with the source's defaults. -/
structure NoiseOptions where
  sampleRate : JsNum
  sampleCount : JsNum
  distribution : Distribution := .gaussian
  targetRmsDbfs : ℝ := -80
  zeroEndpoints : Bool := true
  dcRemoval : Bool := true
  seed : Option ℤ := none

/-- Possible outcomes of one generator call: a thrown error, the model's
fuel bound interrupting a rejection loop, or the returned buffer. -/
inductive GenOutcome where
  | error (e : GenError)
  | outOfFuel
  | ok (buf : List ℝ)

/-- `generateEndpointConstrainedWhiteNoise(opts)`: validate the sample
rate, resolve the length, fill with noise from the (seeded or unseeded)
random source, then run the detrend / DC-removal / normalization /
clip-safety / endpoint-reassertion pipeline. -/
noncomputable def generateEndpointConstrainedWhiteNoise (opts : NoiseOptions)
    (entropy : ℕ → ℚ) (fuel : ℕ) : GenOutcome :=
  if !opts.sampleRate.isFinite || opts.sampleRate.jsLe0 then
    .error .invalidSampleRate
  else
    match computeLength opts.sampleCount with
    | .error e => .error e
    | .ok n =>
      match fill opts.distribution entropy fuel n (initialState opts.seed) with
      | none => .outOfFuel
      | some p => .ok (pipeline opts.zeroEndpoints opts.dcRemoval opts.targetRmsDbfs p.1)

/-- A constant zero entropy stream (one possible behaviour of
`Math.random`), used to instantiate universally quantified theorems. -/
def entropy0 : ℕ → ℚ := fun _ => 0

/-- A constant one-half entropy stream, a second `Math.random`
behaviour. -/
def entropyHalf : ℕ → ℚ := fun _ => 1 / 2

/-- A concrete request: uniform distribution, two samples, seed 1. -/
def optsU2 : NoiseOptions :=
  { sampleRate := .num 24000, sampleCount := .num 2, distribution := .uniform,
    targetRmsDbfs := -80, zeroEndpoints := true, dcRemoval := true, seed := some 1 }

/-- A concrete request: uniform distribution, one sample, seed 1. -/
def optsU1 : NoiseOptions :=
  { sampleRate := .num 24000, sampleCount := .num 1, distribution := .uniform,
    targetRmsDbfs := -80, zeroEndpoints := true, dcRemoval := true, seed := some 1 }

/-- A concrete request with a negative sample count. -/
def optsNegCount : NoiseOptions :=
  { sampleRate := .num 24000, sampleCount := .num (-5), distribution := .uniform,
    targetRmsDbfs := -80, zeroEndpoints := true, dcRemoval := true, seed := some 1 }

/-- A concrete request with sampleCount = +Infinity. -/
def optsInfCount : NoiseOptions :=
  { sampleRate := .num 24000, sampleCount := .posInf, distribution := .uniform,
    targetRmsDbfs := -80, zeroEndpoints := true, dcRemoval := true, seed := some 1 }

/-- A JavaScript float sample as fed to the encoder: a finite value
(modelled by an exact real) or one of the three non-finite values. -/
inductive JsFloat where
  | num (x : ℝ)
  | nan
  | posInf
  | negInf

/-- `Math.min` (NaN-propagating). -/
def jsMin : JsFloat → JsFloat → JsFloat
  | .nan, _ => .nan
  | _, .nan => .nan
  | .negInf, _ => .negInf
  | _, .negInf => .negInf
  | .posInf, b => b
  | a, .posInf => a
  | .num x, .num y => .num (min x y)

/-- `Math.max` (NaN-propagating). -/
def jsMax : JsFloat → JsFloat → JsFloat
  | .nan, _ => .nan
  | _, .nan => .nan
  | .posInf, _ => .posInf
  | _, .posInf => .posInf
  | .negInf, b => b
  | a, .negInf => a
  | .num x, .num y => .num (max x y)

/-- Multiplication of a JavaScript float by a positive finite constant
(the encoder only multiplies by 32767). -/
def jsMulPos (s : JsFloat) (c : ℝ) : JsFloat :=
  match s with
  | .num x => .num (x * c)
  | .nan => .nan
  | .posInf => .posInf
  | .negInf => .negInf

/-- Truncation toward zero of a real number, as ECMAScript applies to a
finite value inside `ToInt32`. -/
def jsTruncR (x : ℝ) : ℤ :=
  if 0 ≤ x then ⌊x⌋ else ⌈x⌉

/-- ECMAScript `ToInt32` (the `| 0` operator): NaN and the infinities map
to 0, a finite value is truncated toward zero and wrapped into
`[-2^31, 2^31)`. -/
def jsToInt32 : JsFloat → ℤ
  | .num x => (jsTruncR x + 2147483648) % 4294967296 - 2147483648
  | _ => 0

/-- ECMAScript `ToInt16`, applied by the `Int16Array` element store:
wrap into `[-2^15, 2^15)`. -/
def toInt16 (z : ℤ) : ℤ :=
  (z + 32768) % 65536 - 32768

/-- The per-sample body of `floatToPCM16`:
`v = Math.max(-1, Math.min(1, s)); pcm[i] = (v * 32767) | 0` followed by
the `Int16Array` store. -/
def pcm16OfSample (s : JsFloat) : ℤ :=
  toInt16 (jsToInt32 (jsMulPos (jsMax (.num (-1)) (jsMin (.num 1) s)) 32767))

/-- `floatToPCM16(float32)`. -/
def floatToPCM16 (samples : List JsFloat) : List ℤ :=
  samples.map pcm16OfSample

/-- Little-endian bytes of a 16-bit two's-complement integer, as stored by
`DataView.setInt16(offset, v, true)`. -/
def int16LE (v : ℤ) : List ℕ :=
  [((v % 65536).toNat) % 256, ((v % 65536).toNat) / 256]

/-- Little-endian bytes of an unsigned 16-bit field
(`DataView.setUint16(offset, v, true)`). -/
def u16LE (v : ℕ) : List ℕ :=
  [v % 256, v / 256 % 256]

/-- Little-endian bytes of an unsigned 32-bit field
(`DataView.setUint32(offset, v, true)`). -/
def u32LE (v : ℕ) : List ℕ :=
  [v % 256, v / 256 % 256, v / 65536 % 256, v / 16777216 % 256]

/-- The 44-byte RIFF/WAVE header written by `makeWavBlob` for a PCM
payload of `n` 16-bit mono samples: the string, u32 and u16 fields in
write order, with `byteRate = sampleRate * 1 * 16 / 8` and
`blockAlign = 2`. -/
def wavHeader (n sampleRate : ℕ) : List ℕ :=
  [82, 73, 70, 70] ++ u32LE (36 + n * 2) ++ [87, 65, 86, 69] ++
  [102, 109, 116, 32] ++ u32LE 16 ++ u16LE 1 ++ u16LE 1 ++
  u32LE sampleRate ++ u32LE (sampleRate * 2) ++ u16LE 2 ++ u16LE 16 ++
  [100, 97, 116, 97] ++ u32LE (n * 2)

/-- The byte content of the Blob built by `makeWavBlob`: the header
followed by the PCM samples, each as two little-endian bytes. -/
def makeWavBlob (samples : List JsFloat) (sampleRate : ℕ) : List ℕ :=
  wavHeader (floatToPCM16 samples).length sampleRate ++
    (floatToPCM16 samples).flatMap int16LE

/-- The byte content of the Blob built by `makeRawPCMBlob`: just the PCM
samples, little-endian. -/
def makeRawPCMBlob (samples : List JsFloat) : List ℕ :=
  (floatToPCM16 samples).flatMap int16LE

end

theorem detrendMap_length (a b d : ℝ) : ∀ (l : List ℝ) (i : ℕ),
    (detrendMap a b d l i).length = l.length := by
  intro l
  induction l with
  | nil => intro i; rfl
  | cons x xs ih => intro i; simp [detrendMap, ih]

theorem detrendLinearInPlace_length (l : List ℝ) :
    (detrendLinearInPlace l).length = l.length := by
  unfold detrendLinearInPlace
  split
  · split
    · simp_all
    · rfl
  · simp [detrendMap_length]

theorem removeMeanInPlace_length (l : List ℝ) :
    (removeMeanInPlace l).length = l.length := by
  unfold removeMeanInPlace
  split <;> simp

theorem normalizeStage_length (t : ℝ) (l : List ℝ) :
    (normalizeStage t l).length = l.length := by
  simp only [normalizeStage]
  split <;> simp

theorem clipStage_length (l : List ℝ) : (clipStage l).length = l.length := by
  simp only [clipStage]
  split <;> simp

theorem endpointStage_length (z : Bool) (l : List ℝ) :
    (endpointStage z l).length = l.length := by
  unfold endpointStage
  split
  · split <;> simp
  · rfl

theorem applyDetrend_length (z : Bool) (l : List ℝ) :
    (applyDetrend z l).length = l.length := by
  unfold applyDetrend
  split
  · exact detrendLinearInPlace_length l
  · rfl

theorem applyDc_length (dc : Bool) (l : List ℝ) :
    (applyDc dc l).length = l.length := by
  unfold applyDc
  split
  · exact removeMeanInPlace_length l
  · rfl

theorem pipeline_length (z dc : Bool) (t : ℝ) (l : List ℝ) :
    (pipeline z dc t l).length = l.length := by
  unfold pipeline
  rw [endpointStage_length, clipStage_length, normalizeStage_length,
    applyDc_length, applyDetrend_length]

theorem fill_length (dist : Distribution) (e : ℕ → ℚ) (fuel : ℕ) :
    ∀ (n : ℕ) (st : RngState) (p : List ℝ × RngState),
      fill dist e fuel n st = some p → p.1.length = n := by
  intro n
  induction n with
  | zero =>
    intro st p h
    simp only [fill] at h
    cases h
    rfl
  | succ n ih =>
    intro st p h
    cases dist <;> simp only [fill] at h
    · cases hg : randomGaussian e fuel st with
      | none => rw [hg] at h; cases h
      | some q =>
        rw [hg] at h
        obtain ⟨x, st1⟩ := q
        cases hf : fill .gaussian e fuel n st1 with
        | none => simp [hf] at h
        | some q2 =>
          simp only [hf] at h
          cases h
          simp [ih _ _ hf]
    · cases hf : fill .uniform e fuel n (rngNext e st).2 with
      | none => rw [hf] at h; cases h
      | some q2 =>
        rw [hf] at h
        cases h
        simp [ih _ _ hf]

theorem fill_uniform_total (e : ℕ → ℚ) (fuel : ℕ) :
    ∀ (n : ℕ) (st : RngState), ∃ p, fill .uniform e fuel n st = some p := by
  intro n
  induction n with
  | zero => intro st; exact ⟨([], st), rfl⟩
  | succ n ih =>
    intro st
    obtain ⟨p, hp⟩ := ih (rngNext e st).2
    refine ⟨⟨(((rngNext e st).1 * 2 - 1 : ℚ) : ℝ) :: p.1, p.2⟩, ?_⟩
    simp only [fill, hp]

theorem computeLength_ne_invalid (c : JsNum) :
    computeLength c ≠ .error .invalidSampleRate := by
  unfold computeLength toIndex
  cases c <;> simp [jsFloor, jsMax0]
  split <;> simp
  split <;> simp

/-- Inversion of a successful generator call: the length resolution and
the fill succeeded, and the buffer is the pipeline applied to the raw
noise. -/
theorem generate_ok_inv (opts : NoiseOptions) (e : ℕ → ℚ) (f : ℕ) (buf : List ℝ)
    (h : generateEndpointConstrainedWhiteNoise opts e f = .ok buf) :
    ∃ (n : ℕ) (raw : List ℝ) (st : RngState),
      computeLength opts.sampleCount = .ok n ∧
      fill opts.distribution e f n (initialState opts.seed) = some (raw, st) ∧
      raw.length = n ∧
      buf = pipeline opts.zeroEndpoints opts.dcRemoval opts.targetRmsDbfs raw := by
  unfold generateEndpointConstrainedWhiteNoise at h
  split at h
  · cases h
  · split at h
    · cases h
    · rename_i n hn
      split at h
      · cases h
      · rename_i p hp
        cases h
        exact ⟨n, p.1, p.2, hn, hp, fill_length _ _ _ _ _ _ hp, rfl⟩

theorem foldl_peak_init_le :
    ∀ (l : List ℝ) (b : ℝ), b ≤ l.foldl (fun p x => if p < |x| then |x| else p) b := by
  intro l
  induction l with
  | nil => intro b; exact le_refl b
  | cons a l ih =>
    intro b
    refine le_trans ?_ (ih (if b < |a| then |a| else b))
    split
    · exact le_of_lt (by assumption)
    · exact le_refl b

theorem foldl_peak_mem_le :
    ∀ (l : List ℝ) (b x : ℝ), x ∈ l →
      |x| ≤ l.foldl (fun p x => if p < |x| then |x| else p) b := by
  intro l
  induction l with
  | nil => intro b x h; cases h
  | cons a l ih =>
    intro b x h
    rcases List.mem_cons.mp h with h1 | h2
    · subst h1
      refine le_trans ?_ (foldl_peak_init_le l (if b < |x| then |x| else b))
      split
      · exact le_refl _
      · exact le_of_not_lt (by assumption)
    · exact ih _ x h2

theorem abs_le_peakAbs (l : List ℝ) (x : ℝ) (h : x ∈ l) : |x| ≤ peakAbs l :=
  foldl_peak_mem_le l 0 x h

theorem clipStage_abs_le_one (l : List ℝ) (y : ℝ) (h : y ∈ clipStage l) :
    |y| ≤ 1 := by
  simp only [clipStage] at h
  split at h
  · rename_i hpeak
    obtain ⟨x, hx, rfl⟩ := List.mem_map.mp h
    have h0 : (0 : ℝ) < peakAbs l := lt_trans one_pos hpeak
    have hb := abs_le_peakAbs l x hx
    rw [abs_mul, abs_of_pos (by positivity : (0 : ℝ) < 1 / peakAbs l)]
    calc |x| * (1 / peakAbs l) ≤ peakAbs l * (1 / peakAbs l) := by
          exact mul_le_mul_of_nonneg_right hb (by positivity)
      _ = 1 := by field_simp
  · rename_i hpeak
    exact le_trans (abs_le_peakAbs l y h) (le_of_not_lt hpeak)

theorem mem_endpointStage (z : Bool) (l : List ℝ) (y : ℝ)
    (h : y ∈ endpointStage z l) : y ∈ l ∨ y = 0 := by
  simp only [endpointStage] at h
  split at h
  · split at h
    · rcases List.mem_or_eq_of_mem_set h with h1 | h1
      · rcases List.mem_or_eq_of_mem_set h1 with h2 | h2
        · exact Or.inl h2
        · exact Or.inr h2
      · exact Or.inr h1
    · rcases List.mem_or_eq_of_mem_set h with h1 | h1
      · exact Or.inl h1
      · exact Or.inr h1
  · exact Or.inl h

theorem rms_eq_zero (l : List ℝ) (h : ∀ x ∈ l, x = 0) : rms l = 0 := by
  unfold rms
  split
  · rfl
  · have hs : (l.map (fun x => x * x)).sum = 0 := by
      apply List.sum_eq_zero
      intro y hy
      obtain ⟨x, hx, rfl⟩ := List.mem_map.mp hy
      rw [h x hx, mul_zero]
    rw [hs, zero_div, Real.sqrt_zero]

theorem normalizeStage_of_rms_zero (t : ℝ) (l : List ℝ) (h : rms l = 0) :
    normalizeStage t l = List.replicate l.length 0 := by
  simp only [normalizeStage, h, lt_irrefl, if_false]

theorem clipStage_replicate_zero (n : ℕ) :
    clipStage (List.replicate n (0 : ℝ)) = List.replicate n 0 := by
  have hp : peakAbs (List.replicate n (0 : ℝ)) = 0 := by
    unfold peakAbs
    induction n with
    | zero => rfl
    | succ n ih => simpa [List.replicate_succ] using ih
  simp only [clipStage, hp]
  norm_num

theorem pipeline_all_zero_of_rms_zero (z dc : Bool) (t : ℝ) (l : List ℝ)
    (h : rms (applyDc dc (applyDetrend z l)) = 0) :
    ∀ y ∈ pipeline z dc t l, y = 0 := by
  intro y hy
  unfold pipeline at hy
  rw [normalizeStage_of_rms_zero t _ h, clipStage_replicate_zero] at hy
  rcases mem_endpointStage z _ y hy with h1 | h1
  · exact List.eq_of_mem_replicate h1
  · exact h1

theorem detrend_two (x y : ℝ) : detrendLinearInPlace [x, y] = [0, 0] := by
  simp [detrendLinearInPlace, detrendMap, List.set]

theorem detrend_one (x : ℝ) : detrendLinearInPlace [x] = [0] := by
  simp [detrendLinearInPlace]

theorem removeMean_pair : removeMeanInPlace [(0 : ℝ), 0] = [0, 0] := by
  simp [removeMeanInPlace]

theorem removeMean_single : removeMeanInPlace [(0 : ℝ)] = [0] := by
  simp [removeMeanInPlace]

theorem applyDc_pair (dc : Bool) : applyDc dc [(0 : ℝ), 0] = [0, 0] := by
  cases dc <;> simp [applyDc, removeMean_pair]

theorem applyDc_single (dc : Bool) : applyDc dc [(0 : ℝ)] = [0] := by
  cases dc <;> simp [applyDc, removeMean_single]

theorem endpointStage_pair : endpointStage true [(0 : ℝ), 0] = [0, 0] := rfl

theorem endpointStage_single : endpointStage true [(0 : ℝ)] = [0] := rfl

/-- Any two-sample buffer is collapsed to `[0, 0]` by the
`zeroEndpoints` pipeline: the detrend forces both samples to zero, the
RMS is then zero, and the degenerate branch emits silence. -/
theorem pipeline_two (dc : Bool) (t : ℝ) (l : List ℝ) (h : l.length = 2) :
    pipeline true dc t l = [0, 0] := by
  obtain ⟨x, y, rfl⟩ := List.length_eq_two.mp h
  unfold pipeline
  rw [show applyDetrend true [x, y] = [0, 0] from by
        simp [applyDetrend, detrend_two],
      applyDc_pair, normalizeStage_of_rms_zero _ _ (rms_eq_zero _ (by simp)),
      show ([(0 : ℝ), 0].length) = 2 from rfl,
      show List.replicate 2 (0 : ℝ) = [0, 0] from rfl,
      show clipStage [(0 : ℝ), 0] = [0, 0] from by
        simpa using clipStage_replicate_zero 2,
      endpointStage_pair]

/-- A one-sample buffer is collapsed to `[0]` by the `zeroEndpoints`
pipeline. -/
theorem pipeline_one (dc : Bool) (t : ℝ) (l : List ℝ) (h : l.length = 1) :
    pipeline true dc t l = [0] := by
  obtain ⟨x, rfl⟩ := List.length_eq_one.mp h
  unfold pipeline
  rw [show applyDetrend true [x] = [0] from by
        simp [applyDetrend, detrend_one],
      applyDc_single, normalizeStage_of_rms_zero _ _ (rms_eq_zero _ (by simp)),
      show ([(0 : ℝ)].length) = 1 from rfl,
      show List.replicate 1 (0 : ℝ) = [0] from rfl,
      show clipStage [(0 : ℝ)] = [0] from by
        simpa using clipStage_replicate_zero 1,
      endpointStage_single]

theorem pipeline_nil (z dc : Bool) (t : ℝ) : pipeline z dc t [] = [] := by
  have h0 : applyDetrend z [] = ([] : List ℝ) := by
    cases z <;> simp [applyDetrend, detrendLinearInPlace]
  have h1 : applyDc dc [] = ([] : List ℝ) := by
    cases dc <;> simp [applyDc, removeMeanInPlace]
  unfold pipeline
  rw [h0, h1, normalizeStage_of_rms_zero _ _ (rms_eq_zero _ (by simp))]
  rw [show List.replicate ([] : List ℝ).length (0 : ℝ) = [] from rfl,
    show clipStage ([] : List ℝ) = [] from clipStage_replicate_zero 0]
  simp [endpointStage]

theorem drawNonzero_seeded (e e' : ℕ → ℚ) :
    ∀ (fuel a : ℕ), drawNonzero e fuel (.seeded a) = drawNonzero e' fuel (.seeded a) := by
  intro fuel
  induction fuel with
  | zero => intro a; rfl
  | succ fuel ih =>
    intro a
    simp only [drawNonzero, rngNext]
    split
    · exact ih (mulberryNext a).2
    · rfl

theorem drawNonzero_seeded_state (e : ℕ → ℚ) :
    ∀ (fuel a : ℕ) (q : ℚ) (st : RngState),
      drawNonzero e fuel (.seeded a) = some (q, st) → ∃ b, st = .seeded b := by
  intro fuel
  induction fuel with
  | zero => intro a q st h; cases h
  | succ fuel ih =>
    intro a q st h
    simp only [drawNonzero, rngNext] at h
    split at h
    · exact ih (mulberryNext a).2 q st h
    · cases h
      exact ⟨(mulberryNext a).2, rfl⟩

theorem randomGaussian_seeded (e e' : ℕ → ℚ) (fuel a : ℕ) :
    randomGaussian e fuel (.seeded a) = randomGaussian e' fuel (.seeded a) := by
  unfold randomGaussian
  rw [drawNonzero_seeded e e' fuel a]
  cases h1 : drawNonzero e' fuel (.seeded a) with
  | none => rfl
  | some p =>
    obtain ⟨u, st1⟩ := p
    obtain ⟨b, rfl⟩ := drawNonzero_seeded_state e' fuel a u st1 h1
    dsimp only
    rw [drawNonzero_seeded e e' fuel b]

theorem randomGaussian_seeded_state (e : ℕ → ℚ) (fuel a : ℕ) (x : ℝ) (st : RngState)
    (h : randomGaussian e fuel (.seeded a) = some (x, st)) : ∃ b, st = .seeded b := by
  unfold randomGaussian at h
  cases h1 : drawNonzero e fuel (.seeded a) with
  | none => rw [h1] at h; cases h
  | some p =>
    obtain ⟨u, st1⟩ := p
    rw [h1] at h
    obtain ⟨b, rfl⟩ := drawNonzero_seeded_state e fuel a u st1 h1
    dsimp only at h
    cases h2 : drawNonzero e fuel (.seeded b) with
    | none => rw [h2] at h; cases h
    | some q =>
      obtain ⟨v, st2⟩ := q
      rw [h2] at h
      cases h
      exact drawNonzero_seeded_state e fuel b v st h2

theorem fill_seeded (dist : Distribution) (e e' : ℕ → ℚ) (fuel : ℕ) :
    ∀ (n a : ℕ), fill dist e fuel n (.seeded a) = fill dist e' fuel n (.seeded a) := by
  intro n
  induction n with
  | zero => intro a; cases dist <;> rfl
  | succ n ih =>
    intro a
    cases dist
    · simp only [fill]
      rw [randomGaussian_seeded e e' fuel a]
      cases hg : randomGaussian e' fuel (.seeded a) with
      | none => rfl
      | some p =>
        obtain ⟨x, st1⟩ := p
        obtain ⟨b, rfl⟩ := randomGaussian_seeded_state e' fuel a x st1 hg
        dsimp only
        rw [ih b]
    · simp only [fill, rngNext]
      rw [ih (mulberryNext a).2]

theorem computeLength_num_nat (N n : ℕ)
    (h : computeLength (.num (N : ℚ)) = .ok n) : n = N := by
  unfold computeLength jsFloor jsMax0 toIndex at h
  dsimp only at h
  rw [Int.floor_natCast] at h
  rw [show max (0 : ℚ) ((N : ℤ) : ℚ) = ((N : ℤ) : ℚ) from
        max_eq_right (by positivity)] at h
  split at h
  · cases h
  · split at h
    · cases h
    · simp only [Except.ok.injEq] at h
      rw [← h, show (⌊((N : ℤ) : ℚ)⌋) = (N : ℤ) from Int.floor_intCast _]
      exact Int.toNat_natCast N

theorem computeLength_treated_zero (c : JsNum)
    (hc : c = .nan ∨ c = .negInf ∨ ∃ q, c = .num q ∧ q < 0) :
    computeLength c = .ok 0 := by
  rcases hc with rfl | rfl | ⟨q, rfl, hq⟩
  · rfl
  · rfl
  · unfold computeLength jsFloor jsMax0 toIndex
    dsimp only
    rw [show max (0 : ℚ) ((⌊q⌋ : ℤ) : ℚ) = 0 from
          max_eq_left (by exact_mod_cast le_of_lt (Int.floor_lt.mpr (by simpa using hq)))]
    norm_num

/-- After the final endpoint re-assertion on a buffer of length at least
two, both endpoints read back as zero. -/
theorem endpointStage_endpoints (l : List ℝ) (h2 : 2 ≤ l.length) :
    (endpointStage true l)[0]? = some 0 ∧
      (endpointStage true l)[l.length - 1]? = some 0 := by
  simp only [endpointStage]
  rw [show (true && decide (1 ≤ l.length)) = true from by
        simp only [Bool.true_and, decide_eq_true_eq]; omega]
  rw [if_pos rfl, if_pos (by omega : 1 < l.length)]
  constructor
  · rw [List.getElem?_set_ne (by omega : l.length - 1 ≠ 0)]
    exact List.getElem?_set_eq_of_lt 0 (by omega)
  · exact List.getElem?_set_eq_of_lt 0 (by rw [List.length_set]; omega)

/-- The sample-rate rejection condition, spelled out over the four kinds
of JavaScript number. -/
theorem badRate_iff (r : JsNum) :
    (!r.isFinite || r.jsLe0) = true ↔
      (r = .nan ∨ r = .posInf ∨ r = .negInf ∨ ∃ q, r = .num q ∧ q ≤ 0) := by
  cases r <;> simp [JsNum.isFinite, JsNum.jsLe0]

/-- Evaluation of a generator call whose validation and fill succeed. -/
theorem generate_eq_ok (opts : NoiseOptions) (e : ℕ → ℚ) (f n : ℕ)
    (raw : List ℝ) (st : RngState)
    (hr : (!opts.sampleRate.isFinite || opts.sampleRate.jsLe0) = false)
    (hn : computeLength opts.sampleCount = .ok n)
    (hf : fill opts.distribution e f n (initialState opts.seed) = some (raw, st)) :
    generateEndpointConstrainedWhiteNoise opts e f =
      .ok (pipeline opts.zeroEndpoints opts.dcRemoval opts.targetRmsDbfs raw) := by
  unfold generateEndpointConstrainedWhiteNoise
  rw [hr]
  simp only [Bool.false_eq_true, if_false]
  rw [hn]
  dsimp only
  rw [hf]

/-- Evaluation of a generator call whose length conversion raises a
`RangeError`. -/
theorem generate_eq_error_range (opts : NoiseOptions) (e : ℕ → ℚ) (f : ℕ)
    (hr : (!opts.sampleRate.isFinite || opts.sampleRate.jsLe0) = false)
    (hn : computeLength opts.sampleCount = .error .rangeError) :
    generateEndpointConstrainedWhiteNoise opts e f = .error .rangeError := by
  unfold generateEndpointConstrainedWhiteNoise
  rw [hr]
  simp only [Bool.false_eq_true, if_false]
  rw [hn]

/-- The concrete two-sample request evaluates to the buffer `[0, 0]`, for
every entropy stream and fuel bound. -/
theorem generate_optsU2 (e : ℕ → ℚ) (f : ℕ) :
    generateEndpointConstrainedWhiteNoise optsU2 e f = .ok [0, 0] := by
  obtain ⟨p, hp⟩ := fill_uniform_total e f 2 (initialState optsU2.seed)
  obtain ⟨raw, st⟩ := p
  have hlen : raw.length = 2 := fill_length _ e f 2 _ _ hp
  rw [generate_eq_ok optsU2 e f 2 raw st rfl rfl hp]
  rw [show optsU2.zeroEndpoints = true from rfl]
  exact congrArg GenOutcome.ok (pipeline_two _ _ raw hlen)

/-- The concrete one-sample request evaluates to the buffer `[0]`. -/
theorem generate_optsU1 (e : ℕ → ℚ) (f : ℕ) :
    generateEndpointConstrainedWhiteNoise optsU1 e f = .ok [0] := by
  obtain ⟨p, hp⟩ := fill_uniform_total e f 1 (initialState optsU1.seed)
  obtain ⟨raw, st⟩ := p
  have hlen : raw.length = 1 := fill_length _ e f 1 _ _ hp
  rw [generate_eq_ok optsU1 e f 1 raw st rfl rfl hp]
  rw [show optsU1.zeroEndpoints = true from rfl]
  exact congrArg GenOutcome.ok (pipeline_one _ _ raw hlen)

/-- Claim C1: for every request with `zeroEndpoints = true` and an
integral sample count `N ≥ 2` whose generation returns a buffer, the
first and last samples of the buffer are exactly 0, regardless of seed,
distribution, target level and DC-removal flag; the final stage of the
pipeline assigns these zeros explicitly. -/
theorem c1_endpoints_zero (opts : NoiseOptions) (e : ℕ → ℚ) (f : ℕ)
    (buf : List ℝ) (N : ℕ) (hc : opts.sampleCount = .num (N : ℚ)) (hN : 2 ≤ N)
    (hz : opts.zeroEndpoints = true)
    (h : generateEndpointConstrainedWhiteNoise opts e f = .ok buf) :
    buf[0]? = some 0 ∧ buf[N - 1]? = some 0 := by
  obtain ⟨n, raw, st, hn, hf, hlen, hbuf⟩ := generate_ok_inv opts e f buf h
  rw [hc] at hn
  have hnN : n = N := computeLength_num_nat N n hn
  rw [hnN] at hlen
  rw [hbuf]
  unfold pipeline
  rw [hz]
  have hinlen :
      (clipStage (normalizeStage opts.targetRmsDbfs
        (applyDc opts.dcRemoval (applyDetrend true raw)))).length = N := by
    rw [clipStage_length, normalizeStage_length, applyDc_length,
      applyDetrend_length, hlen]
  have hep := endpointStage_endpoints
    (clipStage (normalizeStage opts.targetRmsDbfs
      (applyDc opts.dcRemoval (applyDetrend true raw)))) (by omega)
  rw [hinlen] at hep
  exact hep

/-- Witness for C1: the concrete two-sample uniform request returns
`[0, 0]`, whose endpoints are 0. -/
theorem c1_witness :
    (2 ≤ 2) ∧ ([(0 : ℝ), 0][0]? = some 0 ∧ [(0 : ℝ), 0][2 - 1]? = some 0) :=
  ⟨le_refl 2,
   c1_endpoints_zero optsU2 entropy0 1 [0, 0] 2 (by simp [optsU2])
     (le_refl 2) rfl (generate_optsU2 entropy0 1)⟩

/-- Claim C2: whenever a request with integral sample count `N` returns a
buffer, that buffer has length exactly `N` (including `N = 0` and
`N = 1`); and for `N = 1` with `zeroEndpoints = true` the single sample
is 0. -/
theorem c2_length_exact (opts : NoiseOptions) (e : ℕ → ℚ) (f : ℕ)
    (buf : List ℝ) (N : ℕ) (hc : opts.sampleCount = .num (N : ℚ))
    (h : generateEndpointConstrainedWhiteNoise opts e f = .ok buf) :
    buf.length = N ∧ (opts.zeroEndpoints = true → N = 1 → buf = [0]) := by
  obtain ⟨n, raw, st, hn, hf, hlen, hbuf⟩ := generate_ok_inv opts e f buf h
  rw [hc] at hn
  have hnN : n = N := computeLength_num_nat N n hn
  subst hnN
  constructor
  · rw [hbuf, pipeline_length, hlen]
  · intro hz h1
    subst h1
    rw [hbuf, hz]
    exact pipeline_one _ _ raw hlen

/-- Witness for C2: the concrete one-sample uniform request returns the
buffer `[0]` of length 1 with its only sample 0. -/
theorem c2_witness :
    ([(0 : ℝ)].length = 1) ∧ (optsU1.zeroEndpoints = true → 1 = 1 → [(0 : ℝ)] = [0]) :=
  c2_length_exact optsU1 entropy0 1 [0] 1 (by simp [optsU1]) (generate_optsU1 entropy0 1)

/-- Claim C3: every sample of every buffer returned by the generator has
absolute value at most 1: the clip-safety stage rescales by the
reciprocal of the peak whenever the peak exceeds 1. -/
theorem c3_no_clip (opts : NoiseOptions) (e : ℕ → ℚ) (f : ℕ)
    (buf : List ℝ) (x : ℝ)
    (h : generateEndpointConstrainedWhiteNoise opts e f = .ok buf)
    (hx : x ∈ buf) : |x| ≤ 1 := by
  obtain ⟨n, raw, st, hn, hf, hlen, hbuf⟩ := generate_ok_inv opts e f buf h
  rw [hbuf] at hx
  unfold pipeline at hx
  rcases mem_endpointStage _ _ _ hx with h1 | h1
  · exact clipStage_abs_le_one _ _ h1
  · rw [h1]
    norm_num

/-- Witness for C3: the sample 0 of the concrete two-sample buffer is
within full scale. -/
theorem c3_witness : |(0 : ℝ)| ≤ 1 :=
  c3_no_clip optsU2 entropy0 1 [0, 0] 0 (generate_optsU2 entropy0 1) (by simp)

/-- Counterexample to C4 as stated: for the non-finite sample count
+Infinity the generator does not return an empty buffer; the typed-array
length conversion raises a `RangeError`. -/
theorem c4_counterexample :
    generateEndpointConstrainedWhiteNoise optsInfCount entropy0 1 =
      .error .rangeError :=
  generate_eq_error_range optsInfCount entropy0 1 rfl rfl

/-- Claim C4 as amended: with a valid sample rate, a sample count that is
negative, NaN or -Infinity yields the empty buffer without an error,
while the non-finite value +Infinity raises a `RangeError`. -/
theorem c4_amended_behavior (opts : NoiseOptions) (e : ℕ → ℚ) (f : ℕ)
    (hr : ∃ q, opts.sampleRate = .num q ∧ 0 < q) :
    ((opts.sampleCount = .nan ∨ opts.sampleCount = .negInf ∨
        ∃ q, opts.sampleCount = .num q ∧ q < 0) →
      generateEndpointConstrainedWhiteNoise opts e f = .ok []) ∧
    (opts.sampleCount = .posInf →
      generateEndpointConstrainedWhiteNoise opts e f = .error .rangeError) := by
  obtain ⟨q, hq, hqpos⟩ := hr
  have hrb : (!opts.sampleRate.isFinite || opts.sampleRate.jsLe0) = false := by
    rw [hq]
    simp only [JsNum.isFinite, JsNum.jsLe0, Bool.not_true, Bool.false_or,
      decide_eq_false_iff_not, not_le]
    exact hqpos
  constructor
  · intro hc
    rw [generate_eq_ok opts e f 0 [] (initialState opts.seed) hrb
          (computeLength_treated_zero _ hc) rfl]
    rw [pipeline_nil]
  · intro hc
    refine generate_eq_error_range opts e f hrb ?_
    rw [hc]
    rfl

/-- Witness for C4 (amended): the concrete negative-count request returns
the empty buffer, the +Infinity request raises a `RangeError`. -/
theorem c4_witness :
    generateEndpointConstrainedWhiteNoise optsNegCount entropy0 1 = .ok [] ∧
      generateEndpointConstrainedWhiteNoise optsInfCount entropy0 1 =
        .error .rangeError :=
  ⟨(c4_amended_behavior optsNegCount entropy0 1 ⟨24000, rfl, by norm_num⟩).1
      (Or.inr (Or.inr ⟨-5, rfl, by norm_num⟩)),
   (c4_amended_behavior optsInfCount entropy0 1 ⟨24000, rfl, by norm_num⟩).2 rfl⟩

/-- Claim C5: the generator returns the sample-rate validation error
exactly when the requested sample rate is non-finite or at most 0; in
particular no buffer is produced in that case, and a positive finite
sample rate never triggers this error. -/
theorem c5_rate_validation (opts : NoiseOptions) (e : ℕ → ℚ) (f : ℕ) :
    generateEndpointConstrainedWhiteNoise opts e f = .error .invalidSampleRate ↔
      (opts.sampleRate = .nan ∨ opts.sampleRate = .posInf ∨
        opts.sampleRate = .negInf ∨ ∃ q, opts.sampleRate = .num q ∧ q ≤ 0) := by
  constructor
  · intro h
    by_cases hc : (!opts.sampleRate.isFinite || opts.sampleRate.jsLe0) = true
    · exact (badRate_iff _).mp hc
    · exfalso
      have hc' : (!opts.sampleRate.isFinite || opts.sampleRate.jsLe0) = false :=
        Bool.eq_false_iff.mpr hc
      unfold generateEndpointConstrainedWhiteNoise at h
      rw [hc'] at h
      simp only [Bool.false_eq_true, if_false] at h
      cases hn : computeLength opts.sampleCount with
      | error e2 =>
        rw [hn] at h
        dsimp only at h
        injection h with h2
        rw [h2] at hn
        exact computeLength_ne_invalid _ hn
      | ok n =>
        rw [hn] at h
        dsimp only at h
        cases hf : fill opts.distribution e f n (initialState opts.seed) with
        | none => rw [hf] at h; cases h
        | some p => rw [hf] at h; dsimp only at h; cases h
  · intro h
    unfold generateEndpointConstrainedWhiteNoise
    rw [(badRate_iff _).mpr h]
    rfl

/-- Claim C6: in the loudness-normalization step (steps 2-5 of the
generator, `pipeline`), whenever the computed RMS of the buffer entering
normalization is zero — the only degenerate case in this exact real
model, where no value is NaN or infinite — the returned buffer is
all-zero silence, and no error is produced (the pipeline is total). -/
theorem c6_degenerate_rms_silence (z dc : Bool) (t : ℝ) (l : List ℝ)
    (h : rms (applyDc dc (applyDetrend z l)) = 0) :
    ∀ y ∈ pipeline z dc t l, y = 0 :=
  pipeline_all_zero_of_rms_zero z dc t l h

/-- Witness for C6: the empty buffer has RMS 0 and the pipeline output on
it is all-zero. -/
theorem c6_witness :
    rms (applyDc false (applyDetrend false [])) = 0 ∧
      ∀ y ∈ pipeline false false 0 [], y = 0 :=
  ⟨rfl, c6_degenerate_rms_silence false false 0 [] rfl⟩

/-- Claim C9: with a numeric seed fixed, the generator's output does not
depend on the ambient entropy source at all — two invocations with the
same request but different `Math.random` behaviours produce identical
outcomes, so repeated runs are bit-identical. -/
theorem c9_seed_determinism (opts : NoiseOptions) (e1 e2 : ℕ → ℚ) (f : ℕ)
    (s : ℤ) (h : opts.seed = some s) :
    generateEndpointConstrainedWhiteNoise opts e1 f =
      generateEndpointConstrainedWhiteNoise opts e2 f := by
  unfold generateEndpointConstrainedWhiteNoise
  split
  · rfl
  · cases hn : computeLength opts.sampleCount with
    | error e => rfl
    | ok n =>
      dsimp only
      rw [h]
      rw [show initialState (some s) = RngState.seeded (s % 4294967296).toNat from rfl]
      rw [fill_seeded opts.distribution e1 e2 f n (s % 4294967296).toNat]

/-- Witness for C9: the concrete seeded request gives the same outcome
under the all-zero and the constant-one-half entropy streams. -/
theorem c9_witness :
    generateEndpointConstrainedWhiteNoise optsU2 entropy0 1 =
      generateEndpointConstrainedWhiteNoise optsU2 entropyHalf 1 :=
  c9_seed_determinism optsU2 entropy0 entropyHalf 1 1 rfl

/-- Claim C10: every request with sampleCount = 2 and
`zeroEndpoints = true` that returns a buffer returns exactly `[0, 0]`
(pure silence), for every seed, entropy behaviour and distribution: the
detrend zeroes both samples, the RMS becomes 0, and the degenerate
branch emits silence. -/
theorem c10_two_sample_collapse (opts : NoiseOptions) (e : ℕ → ℚ) (f : ℕ)
    (buf : List ℝ) (hc : opts.sampleCount = .num 2)
    (hz : opts.zeroEndpoints = true)
    (h : generateEndpointConstrainedWhiteNoise opts e f = .ok buf) :
    buf = [0, 0] := by
  obtain ⟨n, raw, st, hn, hf, hlen, hbuf⟩ := generate_ok_inv opts e f buf h
  rw [hc] at hn
  rw [show (2 : ℚ) = ((2 : ℕ) : ℚ) from by norm_num] at hn
  have hn2 : n = 2 := computeLength_num_nat 2 n hn
  subst hn2
  rw [hbuf, hz]
  exact pipeline_two _ _ raw hlen

/-- Witness for C10: the concrete two-sample seeded uniform request
returns `[0, 0]`. -/
theorem c10_witness :
    generateEndpointConstrainedWhiteNoise optsU2 entropy0 1 = .ok [0, 0] ∧
      ([(0 : ℝ), 0] : List ℝ) = [0, 0] :=
  ⟨generate_optsU2 entropy0 1,
   c10_two_sample_collapse optsU2 entropy0 1 [0, 0] rfl rfl (generate_optsU2 entropy0 1)⟩

theorem flatMap_int16LE_length (pcm : List ℤ) :
    (pcm.flatMap int16LE).length = 2 * pcm.length := by
  induction pcm with
  | nil => rfl
  | cons a l ih =>
    simp only [List.flatMap_cons, List.length_append, ih,
      show (int16LE a).length = 2 from rfl, List.length_cons]
    omega

theorem floatToPCM16_length (samples : List JsFloat) :
    (floatToPCM16 samples).length = samples.length := by
  simp [floatToPCM16]

theorem wavHeader_length (n sr : ℕ) : (wavHeader n sr).length = 44 := rfl

theorem wavHeader_take4 (n sr : ℕ) :
    (wavHeader n sr).take 4 = [82, 73, 70, 70] := rfl

theorem wavHeader_drop4_take4 (n sr : ℕ) :
    ((wavHeader n sr).drop 4).take 4 = u32LE (36 + n * 2) := rfl

theorem wavHeader_drop8_take4 (n sr : ℕ) :
    ((wavHeader n sr).drop 8).take 4 = [87, 65, 86, 69] := rfl

theorem wavHeader_drop40_take4 (n sr : ℕ) :
    ((wavHeader n sr).drop 40).take 4 = u32LE (n * 2) := rfl

/-- Claim C7: raw PCM encoding of an `N`-sample buffer yields exactly
`2N` bytes; WAV encoding yields exactly `44 + 2N` bytes, starting with
"RIFF", with the little-endian chunk size `36 + 2N` at offset 4, "WAVE"
at offset 8 and the little-endian data size `2N` at offset 40. -/
theorem c7_encoding_layout (samples : List JsFloat) (sampleRate : ℕ) :
    (makeRawPCMBlob samples).length = 2 * samples.length ∧
    (makeWavBlob samples sampleRate).length = 44 + 2 * samples.length ∧
    (makeWavBlob samples sampleRate).take 4 = [82, 73, 70, 70] ∧
    ((makeWavBlob samples sampleRate).drop 4).take 4 =
      u32LE (36 + 2 * samples.length) ∧
    ((makeWavBlob samples sampleRate).drop 8).take 4 = [87, 65, 86, 69] ∧
    ((makeWavBlob samples sampleRate).drop 40).take 4 =
      u32LE (2 * samples.length) := by
  have hp : (floatToPCM16 samples).length = samples.length :=
    floatToPCM16_length samples
  refine ⟨?_, ?_, ?_, ?_, ?_, ?_⟩
  · unfold makeRawPCMBlob
    rw [flatMap_int16LE_length, hp]
  · unfold makeWavBlob
    rw [List.length_append, wavHeader_length, flatMap_int16LE_length, hp]
  · unfold makeWavBlob
    rw [List.take_append_of_le_length (by rw [wavHeader_length]; omega),
      wavHeader_take4]
  · unfold makeWavBlob
    rw [List.drop_append_of_le_length (by rw [wavHeader_length]; omega),
      List.take_append_of_le_length
        (by rw [List.length_drop, wavHeader_length]; omega),
      wavHeader_drop4_take4, hp, Nat.mul_comm samples.length 2]
  · unfold makeWavBlob
    rw [List.drop_append_of_le_length (by rw [wavHeader_length]; omega),
      List.take_append_of_le_length
        (by rw [List.length_drop, wavHeader_length]; omega),
      wavHeader_drop8_take4]
  · unfold makeWavBlob
    rw [List.drop_append_of_le_length (by rw [wavHeader_length]; omega),
      List.take_append_of_le_length
        (by rw [List.length_drop, wavHeader_length]),
      wavHeader_drop40_take4, hp, Nat.mul_comm samples.length 2]

/-- For a clamped sample the two wrap-arounds (`ToInt32` and the
`Int16Array` store) are the identity, so the conversion is exactly
truncation toward zero. -/
theorem pcm16_wrap_identity (c : ℝ) (hc1 : -1 ≤ c) (hc2 : c ≤ 1) :
    toInt16 (jsToInt32 (.num (c * 32767))) = jsTruncR (c * 32767) := by
  have hy1 : (-32767 : ℝ) ≤ c * 32767 := by nlinarith
  have hy2 : c * 32767 ≤ 32767 := by nlinarith
  have hceil : ⌈(-32767 : ℝ)⌉ = -32767 := by
    rw [show (-32767 : ℝ) = -(32767 : ℝ) from by norm_num, Int.ceil_neg]
    norm_num
  have ht1 : (-32767 : ℤ) ≤ jsTruncR (c * 32767) := by
    unfold jsTruncR
    split
    · have h0 : (0 : ℤ) ≤ ⌊c * 32767⌋ :=
        Int.le_floor.mpr (by exact_mod_cast (by assumption : (0 : ℝ) ≤ c * 32767))
      omega
    · calc (-32767 : ℤ) = ⌈(-32767 : ℝ)⌉ := hceil.symm
        _ ≤ ⌈c * 32767⌉ := Int.ceil_le_ceil hy1
  have ht2 : jsTruncR (c * 32767) ≤ 32767 := by
    unfold jsTruncR
    split
    · calc ⌊c * 32767⌋ ≤ ⌊(32767 : ℝ)⌋ := Int.floor_le_floor hy2
        _ = 32767 := by norm_num
    · have hneg : c * 32767 ≤ 0 := le_of_lt (lt_of_not_le (by assumption))
      calc ⌈c * 32767⌉ ≤ ⌈(0 : ℝ)⌉ := Int.ceil_le_ceil hneg
        _ = 0 := by norm_num
        _ ≤ 32767 := by norm_num
  show toInt16 ((jsTruncR (c * 32767) + 2147483648) % 4294967296 - 2147483648) =
    jsTruncR (c * 32767)
  unfold toInt16
  omega

/-- Claim C8: the float-to-int16 conversion maps a finite sample `x` to
the clamp of `x` into `[-1, 1]`, scaled by 32767 and truncated toward
zero; the infinities clamp to the extreme codes ±32767, and NaN (whose
product propagates NaN, which `ToInt32` takes to 0) maps to 0. -/
theorem c8_float_to_pcm16 :
    (∀ x : ℝ, pcm16OfSample (.num x) = jsTruncR (max (-1) (min 1 x) * 32767)) ∧
      pcm16OfSample .posInf = 32767 ∧
      pcm16OfSample .negInf = -32767 ∧
      pcm16OfSample .nan = 0 := by
  refine ⟨fun x => ?_, ?_, ?_, ?_⟩
  · exact pcm16_wrap_identity (max (-1) (min 1 x)) (le_max_left _ _)
      (max_le (by norm_num) (min_le_left _ _))
  · show toInt16 (jsToInt32 (.num (max (-1) 1 * 32767))) = 32767
    rw [show max (-1 : ℝ) 1 = 1 from by norm_num]
    have := pcm16_wrap_identity 1 (by norm_num) (by norm_num)
    rw [this]
    unfold jsTruncR
    rw [if_pos (by norm_num : (0 : ℝ) ≤ 1 * 32767)]
    norm_num
  · show toInt16 (jsToInt32 (.num (-1 * 32767))) = -32767
    have := pcm16_wrap_identity (-1) (by norm_num) (by norm_num)
    rw [this]
    unfold jsTruncR
    rw [if_neg (by norm_num : ¬ (0 : ℝ) ≤ -1 * 32767)]
    rw [show (-1 * 32767 : ℝ) = -(32767 : ℝ) from by norm_num, Int.ceil_neg]
    norm_num
  · show toInt16 (jsToInt32 JsFloat.nan) = 0
    show toInt16 0 = 0
    unfold toInt16
    decide

end ECWN
